import Mathlib

/-!
The polling engine and the unsubscribe callback of telefeed.

A shallow embedding of `internal/bot/poller.go` (`PollOnce`, `processFeed`) and of the
unsubscribe path of `internal/bot/handlers.go` (`OnList`, `OnCallback`).

* A `time.Time` is an instant, modelled as an `Int`; the zero value `time.Time{}` is `0`
  and `Before` is `<`.
* A `*time.Time` is an `Option Int`; dereferencing `none` is a runtime panic.
* The collaborators (`Storage`, `Parser`, `Bot`) are interfaces: their answers are given
  by oracles, and every call made is recorded in a trace.
-/

namespace Telefeed

/-! ## Data model -/

/-- The type `sql.NullTime`: `Time` is the zero instant when the column is NULL. -/
structure NullTime where
  Time : Int
  Valid : Bool
deriving DecidableEq, Repr

/-- The fields of `db.Feed` that the poller and the handlers read. -/
structure Feed where
  ID : Int
  Url : String
  Title : Option String
  LastFetchedAt : NullTime
deriving DecidableEq, Repr

/-- The fields of `gofeed.Item` that the poller reads; `PublishedParsed` is a pointer. -/
structure Item where
  Title : String
  Link : String
  PublishedParsed : Option Int
deriving DecidableEq, Repr

/-- One call made by the poller to a collaborator, with the answer it got. -/
inductive Event where
  | parseURL (url : String) (ok : Bool)
  | send (chat : Int) (what : String) (entry : Item) (ok : Bool)
  | update (id : Int) (lastFetchedAt : NullTime) (ok : Bool)
deriving DecidableEq, Repr

/-- What one call of `processFeed` did: the calls it made, oldest first, and whether it
ended in a nil-pointer panic instead of returning. -/
structure Run where
  trace : List Event
  panicked : Bool
deriving DecidableEq, Repr

/-- Put an earlier call in front of the rest of a run. -/
def Run.push (e : Event) (r : Run) : Run := ⟨e :: r.trace, r.panicked⟩

/-! ## processFeed -/

/-- The comparison handed to `sort.Slice`:
`feed.Items[i].PublishedParsed.Before(*feed.Items[j].PublishedParsed)`.
Both pointers are dereferenced, so a nil one panics (`none`). -/
def less (a b : Item) : Option Bool :=
  match a.PublishedParsed, b.PublishedParsed with
  | some x, some y => some (decide (x < y))
  | _, _ => none

/-- Inner loop of the insertion sort `sort.Slice` runs on a short slice: the new element
moves left while it is `less` than its predecessor. The list is the already sorted part,
nearest predecessor first. -/
def insertLeft (x : Item) : List Item → Option (List Item)
  | [] => some [x]
  | p :: ps =>
    match less x p with
    | none => none
    | some true => (insertLeft x ps).map (fun l => p :: l)
    | some false => some (x :: p :: ps)

/-- Outer loop of the insertion sort, `acc` being the sorted part in reverse. -/
def sortLoop : List Item → List Item → Option (List Item)
  | acc, [] => some acc
  | acc, x :: xs =>
    match insertLeft x acc with
    | none => none
    | some acc1 => sortLoop acc1 xs

/-- The call `sort.Slice(feed.Items, less)`, as the insertion sort the standard library
runs on a short slice; on a longer one it also ends with a sorted permutation, ties
possibly in another order, and also calls `less` on every element once there are two.
`none` is a panic raised by `less`. -/
def sortSlice (items : List Item) : Option (List Item) :=
  (sortLoop [] items).map List.reverse

/-- The text `fmt.Sprintf("%s\n%s", item.Title, item.Link)`. -/
def sendText (item : Item) : String := item.Title ++ "\n" ++ item.Link

/-- The `for _, item := range feed.Items` loop of `processFeed`. `ns` and `nu` count the
calls of `bot.Send` and `UpdateFeedLastFetched` made so far in this pass; `sendOk k` and
`updateOk k` tell whether the call number `k` returns a nil error. -/
def deliver (chatID : Int) (sendOk updateOk : Nat → Bool) (f : Feed) :
    List Item → Nat → Nat → Run
  | [], _, _ => ⟨[], false⟩
  | item :: rest, ns, nu =>
    match item.PublishedParsed with
    | none => ⟨[], true⟩
    | some t =>
      if t < f.LastFetchedAt.Time then
        deliver chatID sendOk updateOk f rest ns nu
      else if sendOk ns = false then
        (deliver chatID sendOk updateOk f rest (ns + 1) nu).push
          (.send chatID (sendText item) item false)
      else
        ((deliver chatID sendOk updateOk f rest (ns + 1) (nu + 1)).push
          (.update f.ID ⟨t, true⟩ (updateOk nu))).push
          (.send chatID (sendText item) item true)

/-- The method `Poller.processFeed`: fetch, sort, then the delivery loop. -/
def processFeed (chatID : Int) (parseURL : String → Except String (List Item))
    (sendOk updateOk : Nat → Bool) (f : Feed) : Run :=
  match parseURL f.Url with
  | .error _ => ⟨[.parseURL f.Url false], false⟩
  | .ok items =>
    match sortSlice items with
    | none => ⟨[.parseURL f.Url true], true⟩
    | some sorted => (deliver chatID sendOk updateOk f sorted 0 0).push (.parseURL f.Url true)

/-! ## Reading a trace -/

/-- The entries handed to `bot.Send`, in call order. -/
def sentEntries : List Event → List Item
  | [] => []
  | .send _ _ e _ :: es => e :: sentEntries es
  | _ :: es => sentEntries es

/-- The entries for which `bot.Send` returned a nil error, in call order. -/
def deliveredEntries : List Event → List Item
  | [] => []
  | .send _ _ e true :: es => e :: deliveredEntries es
  | _ :: es => deliveredEntries es

/-- The arguments of the calls of `UpdateFeedLastFetched`, in call order. -/
def updateAttempts : List Event → List (Int × NullTime)
  | [] => []
  | .update i t _ :: es => (i, t) :: updateAttempts es
  | _ :: es => updateAttempts es

/-- The entries whose delivery succeeded and whose watermark update, made right after it,
succeeded too. -/
def ackedEntries : List Event → List Item
  | [] => []
  | .send _ _ e true :: .update _ _ true :: es => e :: ackedEntries es
  | _ :: es => ackedEntries es

/-- The publication instant of an entry that has one (`0` stands in for a nil pointer,
which the statements below exclude). -/
def Item.time (it : Item) : Int := it.PublishedParsed.getD 0

/-- Every entry of the list carries a publication timestamp. -/
def timestamped (items : List Item) : Bool := items.all (fun it => it.PublishedParsed.isSome)

/-- Modelled from the spec: the Subscription Store row of feed `id` (package `internal/db`
is not among the sources): a call of `UpdateFeedLastFetched` that returns a nil error has
replaced the feed's watermark by its argument, a failed call has left it as it was. -/
def storedWatermark (id : Int) : NullTime → List Event → NullTime
  | w, [] => w
  | w, .update i t true :: es => storedWatermark id (if i = id then t else w) es
  | w, _ :: es => storedWatermark id w es

/-! ## PollOnce -/

/-- The collaborators of one poll cycle. Feeds are numbered by their position in the list
`ListFeeds` returned (the order they are put on `feedChan`); the answers of the gateway,
the sink and the store to the calls made for feed number `j` are `parseURL j`, `sendOk j`
and `updateOk j`. `NumCPU` is `runtime.NumCPU()`. -/
structure Env where
  ChatID : Int
  NumCPU : Nat
  listFeeds : Except String (List Feed)
  parseURL : Nat → String → Except String (List Item)
  sendOk : Nat → Nat → Bool
  updateOk : Nat → Nat → Bool

/-- How `PollOnce` ends: it returns an error value (`none` is nil), or a worker goroutine
panics, which ends the whole program before `PollOnce` returns. -/
inductive PollResult where
  | returned (err : Option String)
  | crashed
deriving DecidableEq, Repr

/-- What one call of `PollOnce` did: the number of `ListFeeds` calls, one `Run` for each
feed a worker received from `feedChan` (in channel order), and how it ended. -/
structure Cycle where
  listFeedsCalls : Nat
  runs : List Run
  result : PollResult
deriving DecidableEq, Repr

/-- The worker goroutines draining `feedChan`: every receive hands the next feed to exactly
one worker, which runs `processFeed` on it. The processing of one feed is taken as one step
(the interleaving of the workers only permutes calls made for different feeds); a panic in
a worker stops the program, so the feeds still on the channel are not received. -/
def drain (env : Env) : Nat → List Feed → List Run
  | _, [] => []
  | j, f :: rest =>
    let r := processFeed env.ChatID (env.parseURL j) (env.sendOk j) (env.updateOk j) f
    if r.panicked then [r] else r :: drain env (j + 1) rest

/-- The method `Poller.PollOnce`. With no worker (`NumCPU = 0`) nothing is received. -/
def PollOnce (env : Env) : Cycle :=
  match env.listFeeds with
  | .error e => ⟨1, [], .returned (some e)⟩
  | .ok feeds =>
    let runs := if env.NumCPU = 0 then [] else drain env 0 feeds
    ⟨1, runs, if runs.any (fun r => r.panicked) then .crashed else .returned none⟩

/-- All calls made to the collaborators during the cycle, feed by feed. -/
def Cycle.events (c : Cycle) : List Event := (c.runs.map (fun r => r.trace)).flatten

/-- The addresses handed to `ParseURL`, in call order. -/
def fetchedUrls : List Event → List String
  | [] => []
  | .parseURL u _ :: es => u :: fetchedUrls es
  | _ :: es => fetchedUrls es

/-! ## The unsubscribe button: OnList and OnCallback -/

/-- The verb `%d` of `fmt.Sprintf` on an `int64`. -/
def fmtD (i : Int) : String :=
  if i < 0 then "-" ++ Nat.repr i.natAbs else Nat.repr i.toNat

/-- The callback data `fmt.Sprintf("unsubscribe:%d", feed.ID)` that `OnList` puts on the
Unsubscribe button of a feed. -/
def unsubscribeData (id : Int) : String := "unsubscribe:" ++ fmtD id

/-- One message sent by `OnList`: a plain text, or a feed title with its button data. -/
inductive ListMessage where
  | text (s : String)
  | feed (title : Option String) (buttonText : String) (data : String)
deriving DecidableEq, Repr

/-- The `for _, feed := range feeds` loop of `OnList`; `sendOk k` tells whether the send
number `k` returns a nil error. -/
def listLoop (sendOk : Nat → Bool) : List Feed → Nat → List ListMessage
  | [], _ => []
  | feed :: rest, k =>
    let m := ListMessage.feed feed.Title "Unsubscribe" (unsubscribeData feed.ID)
    if sendOk k then m :: listLoop sendOk rest (k + 1)
    else [m, .text "Error sending the feed"]

/-- The method `Handler.OnList`: the messages it sends (the text of an error value is
left out of the error messages). -/
def OnList (listFeeds : Except String (List Feed)) (sendOk : Nat → Bool) : List ListMessage :=
  match listFeeds with
  | .error _ => [.text "Error listing feeds"]
  | .ok feeds => listLoop sendOk feeds 0

/-- The call `strings.Split(s, sep)` for a one-character separator. -/
def stringsSplit (sep : Char) : List Char → List (List Char)
  | [] => [[]]
  | c :: cs =>
    if c = sep then [] :: stringsSplit sep cs
    else
      match stringsSplit sep cs with
      | [] => [[c]]
      | h :: t => (c :: h) :: t

/-- The two ways `strconv.ParseUint` and `strconv.ParseInt` fail on a valid base and bit
size: `ErrSyntax` and `ErrRange`. -/
inductive NumError where
  | errSyn
  | errRange
deriving DecidableEq, Repr

/-- The helper `lower(c) = c | ('x' - 'X')` of `strconv`, on character codes. -/
def lower (c : Char) : Nat := c.toNat ||| 32

/-- The value of one digit in the `strconv.ParseUint` loop, `none` for the `default`
branch (not a digit nor a letter). -/
def digitVal (c : Char) : Option Nat :=
  if 48 ≤ c.toNat ∧ c.toNat ≤ 57 then some (c.toNat - 48)
  else if 97 ≤ lower c ∧ lower c ≤ 122 then some (lower c - 97 + 10)
  else none

/-- The digit loop of `strconv.ParseUint`: the value read, whether an underscore was seen,
and the error. On `ErrRange` the value returned is `maxVal`. -/
def parseLoop (base : Nat) (base0 : Bool) (maxVal : Nat) :
    List Char → Nat → Bool → Nat × Bool × Option NumError
  | [], n, us => (n, us, none)
  | c :: cs, n, us =>
    if c = '_' ∧ base0 = true then parseLoop base base0 maxVal cs n true
    else
      match digitVal c with
      | none => (0, us, some .errSyn)
      | some d =>
        if d ≥ base then (0, us, some .errSyn)
        else if n ≥ (2 ^ 64 - 1) / base + 1 then (maxVal, us, some .errRange)
        else if n * base + d > maxVal then (maxVal, us, some .errRange)
        else parseLoop base base0 maxVal cs (n * base + d) us

/-- The scan of `strconv.underscoreOK` after the sign and the base mark: `saw` is the kind
of the last character (`0` digit, `_` underscore, `!` other, `^` start). -/
def underscoreScan (hex : Bool) : List Char → Char → Bool
  | [], saw => saw ≠ '_'
  | c :: cs, saw =>
    if (48 ≤ c.toNat ∧ c.toNat ≤ 57) ∨ (hex = true ∧ 97 ≤ lower c ∧ lower c ≤ 102) then
      underscoreScan hex cs '0'
    else if c = '_' then
      if saw ≠ '0' then false else underscoreScan hex cs '_'
    else if saw = '_' then false
    else underscoreScan hex cs '!'

/-- The function `strconv.underscoreOK`: underscores only between digits or after the base
mark. -/
def underscoreOK (s : List Char) : Bool :=
  let s1 := match s with
    | '-' :: r => r
    | '+' :: r => r
    | _ => s
  match s1 with
  | '0' :: c :: r =>
    if lower c = 98 ∨ lower c = 111 ∨ lower c = 120 then
      underscoreScan (lower c = 120) r '0'
    else underscoreScan false s1 '^'
  | _ => underscoreScan false s1 '^'

/-- The function `strconv.ParseUint(s, base, bitSize)` for `base` either `0` or between 2
and 36 and `bitSize` at most 64: the value returned and the error. -/
def ParseUint (s : List Char) (base bitSize : Nat) : Nat × Option NumError :=
  if s = [] then (0, some .errSyn)
  else
    let bd : Nat × List Char :=
      if base ≠ 0 then (base, s)
      else
        match s with
        | '0' :: c :: d :: r =>
          if lower c = 98 then (2, d :: r)
          else if lower c = 111 then (8, d :: r)
          else if lower c = 120 then (16, d :: r)
          else (8, c :: d :: r)
        | '0' :: r => (8, r)
        | _ => (10, s)
    let bits := if bitSize = 0 then 64 else bitSize
    match parseLoop bd.1 (base = 0) (2 ^ bits - 1) bd.2 0 false with
    | (n, _, some e) => (n, some e)
    | (n, us, none) => if us = true ∧ underscoreOK s = false then (0, some .errSyn) else (n, none)

/-- The function `strconv.ParseInt(s, base, bitSize)` under the same limits. -/
def ParseInt (s : List Char) (base bitSize : Nat) : Except NumError Int :=
  if s = [] then .error .errSyn
  else
    let sg : Bool × List Char := match s with
      | '+' :: r => (false, r)
      | '-' :: r => (true, r)
      | _ => (false, s)
    match ParseUint sg.2 base bitSize with
    | (_, some .errSyn) => .error .errSyn
    | (un, _) =>
      let bits := if bitSize = 0 then 64 else bitSize
      let cutoff := 2 ^ (bits - 1)
      if sg.1 = false ∧ un ≥ cutoff then .error .errRange
      else if sg.1 = true ∧ un > cutoff then .error .errRange
      else .ok (if sg.1 then -(un : Int) else (un : Int))

/-- What `OnCallback` answers: `c.Respond()` or `c.Send(text)`. -/
inductive Reply where
  | respond
  | send (text : String)
deriving DecidableEq, Repr

/-- What one call of `OnCallback` did: the identifiers handed to `DeleteFeed` and the
answer given. -/
structure CallbackRun where
  deleted : List Int
  reply : Reply
deriving DecidableEq, Repr

/-- The method `Handler.OnCallback` on callback data `data`; `deleteFeed id` is the error
`DeleteFeed` returns (`none` is nil). -/
def OnCallback (deleteFeed : Int → Option String) (data : String) : CallbackRun :=
  match stringsSplit ':' data.toList with
  | [d0, d1] =>
    if d0 ≠ "unsubscribe".toList then ⟨[], .respond⟩
    else
      match ParseInt d1 0 10 with
      | .error _ => ⟨[], .send "Invalid feed id"⟩
      | .ok id =>
        match deleteFeed id with
        | some e => ⟨[id], .send ("Error unsubscribing from the feed" ++ e)⟩
        | none => ⟨[id], .send "Unsubscribed!"⟩
  | _ => ⟨[], .respond⟩

/-! ## Reading a pass -/

/-- The entries not earlier than the watermark the loop compares with. -/
def notBefore (f : Feed) (l : List Item) : List Item :=
  l.filter (fun it => decide (f.LastFetchedAt.Time ≤ it.time))

/-- The watermark an entry leaves in the store once its update has succeeded. -/
def markOf (e : Item) : NullTime := ⟨e.time, true⟩

/-! ## Scenarios -/

/-- An entry published at instant `t`, for the scenarios. -/
def entry (t : Int) (title : String) : Item := ⟨title, "http://example.com/" ++ title, some t⟩

/-- An entry without a publication date, for the scenarios. -/
def undated (title : String) : Item := ⟨title, "http://example.com/" ++ title, none⟩

/-- The feed number 1 with watermark `w`, for the scenarios. -/
def feedAt (w : NullTime) : Feed := ⟨1, "http://example.com/feed", none, w⟩

/-- A gateway that returns `items` for every address. -/
def gateway (items : List Item) : String → Except String (List Item) := fun _ => .ok items

/-- A collaborator whose every call succeeds. -/
def always : Nat → Bool := fun _ => true

/-- A collaborator whose first call fails and whose later calls succeed. -/
def firstFails : Nat → Bool := fun k => decide (k ≠ 0)

/-- The watermark of a feed never fetched: NULL, read by the code as the zero instant. -/
def unset : NullTime := ⟨0, false⟩

/-! ## The sort -/

theorem time_of_some {it : Item} {t : Int} (h : it.PublishedParsed = some t) : it.time = t := by
  simp [Item.time, h]

theorem timestamped_iff (l : List Item) :
    timestamped l = true ↔ ∀ it ∈ l, it.PublishedParsed.isSome = true := by
  simp [timestamped, List.all_eq_true]

theorem less_of_timestamped {a b : Item} (ha : a.PublishedParsed.isSome = true)
    (hb : b.PublishedParsed.isSome = true) : less a b = some (decide (a.time < b.time)) := by
  obtain ⟨x, hx⟩ := Option.isSome_iff_exists.mp ha
  obtain ⟨y, hy⟩ := Option.isSome_iff_exists.mp hb
  simp [less, hx, hy, Item.time]

theorem insertLeft_spec (x : Item) (hx : x.PublishedParsed.isSome = true) :
    ∀ acc : List Item, (∀ it ∈ acc, it.PublishedParsed.isSome = true) →
      acc.Pairwise (fun a b => b.time ≤ a.time) →
      ∃ r, insertLeft x acc = some r ∧ r.Perm (x :: acc) ∧
        r.Pairwise (fun a b => b.time ≤ a.time) := by
  intro acc
  induction acc with
  | nil => intro _ _; exact ⟨[x], rfl, List.Perm.refl _, List.pairwise_singleton _ _⟩
  | cons p ps ih =>
    intro hts hsorted
    have hp : p.PublishedParsed.isSome = true := hts p (List.mem_cons_self _ _)
    have hps : ∀ it ∈ ps, it.PublishedParsed.isSome = true :=
      fun it h => hts it (List.mem_cons_of_mem _ h)
    rw [List.pairwise_cons] at hsorted
    by_cases hlt : x.time < p.time
    · obtain ⟨r, hr, hperm, hpw⟩ := ih hps hsorted.2
      refine ⟨p :: r, ?_, ?_, ?_⟩
      · simp [insertLeft, less_of_timestamped hx hp, hlt, hr]
      · exact (List.Perm.cons p hperm).trans (List.Perm.swap x p ps)
      · rw [List.pairwise_cons]
        refine ⟨?_, hpw⟩
        intro b hb
        rcases List.mem_cons.mp (hperm.mem_iff.mp hb) with h | h
        · rw [h]; exact le_of_lt hlt
        · exact hsorted.1 b h
    · refine ⟨x :: p :: ps, ?_, List.Perm.refl _, ?_⟩
      · simp [insertLeft, less_of_timestamped hx hp, hlt]
      · rw [List.pairwise_cons, List.pairwise_cons]
        refine ⟨?_, hsorted⟩
        intro b hb
        rcases List.mem_cons.mp hb with h | h
        · rw [h]; exact not_lt.mp hlt
        · exact le_trans (hsorted.1 b h) (not_lt.mp hlt)

theorem sortLoop_spec :
    ∀ (xs acc : List Item), (∀ it ∈ xs, it.PublishedParsed.isSome = true) →
      (∀ it ∈ acc, it.PublishedParsed.isSome = true) →
      acc.Pairwise (fun a b => b.time ≤ a.time) →
      ∃ r, sortLoop acc xs = some r ∧ r.Perm (xs ++ acc) ∧
        r.Pairwise (fun a b => b.time ≤ a.time) := by
  intro xs
  induction xs with
  | nil => intro acc _ _ hs; exact ⟨acc, rfl, List.Perm.refl _, hs⟩
  | cons x xs ih =>
    intro acc hxs hacc hs
    have hx := hxs x (List.mem_cons_self _ _)
    obtain ⟨a1, ha1, hperm1, hpw1⟩ := insertLeft_spec x hx acc hacc hs
    have hacc1 : ∀ it ∈ a1, it.PublishedParsed.isSome = true := by
      intro it hit
      rcases List.mem_cons.mp (hperm1.mem_iff.mp hit) with h | h
      · rw [h]; exact hx
      · exact hacc it h
    obtain ⟨r, hr, hperm, hpw⟩ :=
      ih a1 (fun it h => hxs it (List.mem_cons_of_mem _ h)) hacc1 hpw1
    refine ⟨r, ?_, ?_, hpw⟩
    · simp [sortLoop, ha1, hr]
    · exact hperm.trans ((List.Perm.append_left xs hperm1).trans List.perm_middle)

/-- On entries that all carry a timestamp `sort.Slice` returns, and what it leaves is a
permutation of the entries in non-decreasing order of publication. -/
theorem sortSlice_spec (items : List Item) (hts : timestamped items = true) :
    ∃ sorted, sortSlice items = some sorted ∧ sorted.Perm items ∧
      sorted.Pairwise (fun a b => a.time ≤ b.time) ∧
      (∀ it ∈ sorted, it.PublishedParsed.isSome = true) := by
  have h := (timestamped_iff items).mp hts
  obtain ⟨r, hr, hperm, hpw⟩ :=
    sortLoop_spec items [] h (fun _ hit => absurd hit (List.not_mem_nil _)) List.Pairwise.nil
  have hperm2 : r.reverse.Perm items := by
    have := (List.reverse_perm r).trans hperm
    simpa using this
  refine ⟨r.reverse, ?_, hperm2, ?_, ?_⟩
  · simp [sortSlice, hr]
  · exact List.pairwise_reverse.mpr hpw
  · intro it hit
    exact h it (hperm2.mem_iff.mp hit)

/-! ## The delivery loop -/

theorem deliver_calls (chatID : Int) (sendOk updateOk : Nat → Bool) (f : Feed) :
    ∀ (l : List Item) (ns nu : Nat), (∀ it ∈ l, it.PublishedParsed.isSome = true) →
      (deliver chatID sendOk updateOk f l ns nu).panicked = false ∧
      sentEntries (deliver chatID sendOk updateOk f l ns nu).trace = notBefore f l ∧
      updateAttempts (deliver chatID sendOk updateOk f l ns nu).trace =
        (deliveredEntries (deliver chatID sendOk updateOk f l ns nu).trace).map
          (fun e => (f.ID, (⟨e.time, true⟩ : NullTime))) ∧
      fetchedUrls (deliver chatID sendOk updateOk f l ns nu).trace = [] := by
  intro l
  induction l with
  | nil => intro ns nu _; simp [deliver, sentEntries, updateAttempts, deliveredEntries,
      notBefore, fetchedUrls]
  | cons item rest ih =>
    intro ns nu hts
    obtain ⟨t, ht⟩ := Option.isSome_iff_exists.mp (hts item (List.mem_cons_self _ _))
    have hrest : ∀ it ∈ rest, it.PublishedParsed.isSome = true :=
      fun it h => hts it (List.mem_cons_of_mem _ h)
    have htime : item.time = t := time_of_some ht
    by_cases hlt : t < f.LastFetchedAt.Time
    · have h := ih ns nu hrest
      simp only [notBefore] at h ⊢
      simp [deliver, ht, hlt, htime, h]
    · have hle : f.LastFetchedAt.Time ≤ t := not_lt.mp hlt
      cases hs : sendOk ns with
      | false =>
        have h := ih (ns + 1) nu hrest
        simp only [notBefore] at h ⊢
        simp [deliver, ht, hlt, htime, hle, hs, Run.push, sentEntries, updateAttempts,
          deliveredEntries, fetchedUrls, h]
      | true =>
        have h := ih (ns + 1) (nu + 1) hrest
        simp only [notBefore] at h ⊢
        simp [deliver, ht, hlt, htime, hle, hs, Run.push, sentEntries, updateAttempts,
          deliveredEntries, fetchedUrls, h]

theorem deliveredEntries_sublist : ∀ tr : List Event, (deliveredEntries tr).Sublist (sentEntries tr)
  | [] => List.Sublist.slnil
  | .send _ _ e true :: es => by
    simpa [deliveredEntries, sentEntries] using deliveredEntries_sublist es
  | .send _ _ e false :: es => by
    simpa [deliveredEntries, sentEntries] using
      (deliveredEntries_sublist es).trans (List.sublist_cons_self e _)
  | .parseURL _ _ :: es => by
    simpa [deliveredEntries, sentEntries] using deliveredEntries_sublist es
  | .update _ _ _ :: es => by
    simpa [deliveredEntries, sentEntries] using deliveredEntries_sublist es

theorem ackedEntries_sublist : ∀ tr : List Event, (ackedEntries tr).Sublist (deliveredEntries tr)
  | [] => List.Sublist.slnil
  | [.send _ _ e true] => by simp [ackedEntries, deliveredEntries]
  | .send _ _ e true :: .update _ _ true :: es => by
    simpa [ackedEntries, deliveredEntries] using ackedEntries_sublist es
  | .send _ _ e true :: .update i t false :: es => by
    have h := ackedEntries_sublist es
    simp [ackedEntries, deliveredEntries]
    exact h.trans (List.sublist_cons_self e _)
  | .send _ _ e true :: .send c w e2 o :: es => by
    have h := ackedEntries_sublist (.send c w e2 o :: es)
    simp only [ackedEntries, deliveredEntries]
    exact h.trans (List.sublist_cons_self e _)
  | .send _ _ e true :: .parseURL u o :: es => by
    have h := ackedEntries_sublist (.parseURL u o :: es)
    simp only [ackedEntries, deliveredEntries]
    exact h.trans (List.sublist_cons_self e _)
  | .send _ _ e false :: es => by
    simpa [ackedEntries, deliveredEntries] using ackedEntries_sublist es
  | .parseURL _ _ :: es => by
    simpa [ackedEntries, deliveredEntries] using ackedEntries_sublist es
  | .update _ _ _ :: es => by
    simpa [ackedEntries, deliveredEntries] using ackedEntries_sublist es

theorem storedWatermark_deliver (chatID : Int) (sendOk updateOk : Nat → Bool) (f : Feed) :
    ∀ (l : List Item) (ns nu : Nat) (w : NullTime),
      (∀ it ∈ l, it.PublishedParsed.isSome = true) →
      storedWatermark f.ID w (deliver chatID sendOk updateOk f l ns nu).trace =
        ((ackedEntries (deliver chatID sendOk updateOk f l ns nu).trace).getLast?.map
          markOf).getD w := by
  intro l
  induction l with
  | nil => intro ns nu w _; simp [deliver, storedWatermark, ackedEntries]
  | cons item rest ih =>
    intro ns nu w hts
    obtain ⟨t, ht⟩ := Option.isSome_iff_exists.mp (hts item (List.mem_cons_self _ _))
    have hrest : ∀ it ∈ rest, it.PublishedParsed.isSome = true :=
      fun it h => hts it (List.mem_cons_of_mem _ h)
    have htime : item.time = t := time_of_some ht
    by_cases hlt : t < f.LastFetchedAt.Time
    · simpa [deliver, ht, hlt] using ih ns nu w hrest
    · cases hs : sendOk ns with
      | false =>
        simpa [deliver, ht, hlt, hs, Run.push, storedWatermark, ackedEntries] using
          ih (ns + 1) nu w hrest
      | true =>
        cases hu : updateOk nu with
        | false =>
          simpa [deliver, ht, hlt, hs, hu, Run.push, storedWatermark, ackedEntries] using
            ih (ns + 1) (nu + 1) w hrest
        | true =>
          have h := ih (ns + 1) (nu + 1) ⟨t, true⟩ hrest
          simp only [deliver, ht, hlt, hs, hu, Run.push, storedWatermark, ackedEntries,
            if_true, if_false]
          simp only [Bool.true_eq_false, if_false] at h ⊢
          rw [h]
          cases hA : ackedEntries
              (deliver chatID sendOk updateOk f rest (ns + 1) (nu + 1)).trace with
          | nil => simp [markOf, htime]
          | cons b bs =>
            have hl := List.getLast?_eq_getLast (b :: bs) (List.cons_ne_nil b bs)
            simp [List.getLast?_cons_cons, hl]

theorem last_above (A : List Item) (W : Int) (hs : A.Pairwise (fun a b => a.time ≤ b.time))
    (hge : ∀ e ∈ A, W ≤ e.time) :
    (A.getLast?.map Item.time).getD W =
      (((A.filter (fun e => decide (W < e.time))).getLast?.map Item.time).getD W) := by
  rcases List.eq_nil_or_concat A with h | ⟨L, b, h⟩
  · subst h; simp
  · rw [List.concat_eq_append] at h
    subst h
    by_cases hb : W < b.time
    · simp [List.filter_append, hb]
    · have hbW : b.time = W := le_antisymm (not_lt.mp hb) (hge b (by simp))
      have hL : ∀ e ∈ L, ¬ W < e.time := by
        intro e he
        have : e.time ≤ b.time := by
          rw [List.pairwise_append] at hs
          exact hs.2.2 e he b (by simp)
        omega
      have hnil : L.filter (fun e => decide (W < e.time)) = [] := by
        rw [List.filter_eq_nil_iff]
        intro e he
        simpa using hL e he
      simp [List.filter_append, hb, hnil, hbW]

/-- The outcome of the watermark updates changes neither the entries handed to `bot.Send`,
nor the updates attempted, nor whether the loop panics. -/
theorem deliver_update_independent (chatID : Int) (sendOk u1 u2 : Nat → Bool) (f : Feed) :
    ∀ (l : List Item) (ns nu1 nu2 : Nat),
      sentEntries (deliver chatID sendOk u1 f l ns nu1).trace =
        sentEntries (deliver chatID sendOk u2 f l ns nu2).trace ∧
      deliveredEntries (deliver chatID sendOk u1 f l ns nu1).trace =
        deliveredEntries (deliver chatID sendOk u2 f l ns nu2).trace ∧
      updateAttempts (deliver chatID sendOk u1 f l ns nu1).trace =
        updateAttempts (deliver chatID sendOk u2 f l ns nu2).trace ∧
      (deliver chatID sendOk u1 f l ns nu1).panicked =
        (deliver chatID sendOk u2 f l ns nu2).panicked := by
  intro l
  induction l with
  | nil => intro ns nu1 nu2; simp [deliver]
  | cons item rest ih =>
    intro ns nu1 nu2
    cases ht : item.PublishedParsed with
    | none => simp [deliver, ht]
    | some t =>
      by_cases hlt : t < f.LastFetchedAt.Time
      · simpa [deliver, ht, hlt] using ih ns nu1 nu2
      · cases hs : sendOk ns with
        | false =>
          simpa [deliver, ht, hlt, hs, Run.push, sentEntries, deliveredEntries,
            updateAttempts] using ih (ns + 1) nu1 nu2
        | true =>
          simpa [deliver, ht, hlt, hs, Run.push, sentEntries, deliveredEntries,
            updateAttempts] using ih (ns + 1) (nu1 + 1) (nu2 + 1)

theorem processFeed_of_sorted (chatID : Int) (parseURL : String → Except String (List Item))
    (sendOk updateOk : Nat → Bool) (f : Feed) (items sorted : List Item)
    (hfetch : parseURL f.Url = .ok items) (hsort : sortSlice items = some sorted) :
    processFeed chatID parseURL sendOk updateOk f =
      (deliver chatID sendOk updateOk f sorted 0 0).push (.parseURL f.Url true) := by
  simp [processFeed, hfetch, hsort]

/-- Everything the later statements need about one pass over entries that all carry a
timestamp. -/
theorem processFeed_facts (chatID : Int) (parseURL : String → Except String (List Item))
    (sendOk updateOk : Nat → Bool) (f : Feed) (items : List Item)
    (hfetch : parseURL f.Url = .ok items) (hts : timestamped items = true) :
    ∃ sorted, sortSlice items = some sorted ∧ sorted.Perm items ∧
      sorted.Pairwise (fun a b => a.time ≤ b.time) ∧
      (processFeed chatID parseURL sendOk updateOk f).panicked = false ∧
      sentEntries (processFeed chatID parseURL sendOk updateOk f).trace = notBefore f sorted ∧
      updateAttempts (processFeed chatID parseURL sendOk updateOk f).trace =
        (deliveredEntries (processFeed chatID parseURL sendOk updateOk f).trace).map
          (fun e => (f.ID, (⟨e.time, true⟩ : NullTime))) ∧
      fetchedUrls (processFeed chatID parseURL sendOk updateOk f).trace = [f.Url] ∧
      (∀ w, storedWatermark f.ID w (processFeed chatID parseURL sendOk updateOk f).trace =
        ((ackedEntries (processFeed chatID parseURL sendOk updateOk f).trace).getLast?.map
          markOf).getD w) := by
  obtain ⟨sorted, hsort, hperm, hpw, hsome⟩ := sortSlice_spec items hts
  obtain ⟨h1, h2, h3, h4⟩ := deliver_calls chatID sendOk updateOk f sorted 0 0 hsome
  have h5 := fun w => storedWatermark_deliver chatID sendOk updateOk f sorted 0 0 w hsome
  refine ⟨sorted, hsort, hperm, hpw, ?_, ?_, ?_, ?_, ?_⟩
  · rw [processFeed_of_sorted chatID parseURL sendOk updateOk f items sorted hfetch hsort]
    simpa [Run.push] using h1
  · rw [processFeed_of_sorted chatID parseURL sendOk updateOk f items sorted hfetch hsort]
    simpa [Run.push, sentEntries] using h2
  · rw [processFeed_of_sorted chatID parseURL sendOk updateOk f items sorted hfetch hsort]
    simpa [Run.push, updateAttempts, deliveredEntries] using h3
  · rw [processFeed_of_sorted chatID parseURL sendOk updateOk f items sorted hfetch hsort]
    simpa [Run.push, fetchedUrls] using h4
  · intro w
    rw [processFeed_of_sorted chatID parseURL sendOk updateOk f items sorted hfetch hsort]
    simpa [Run.push, storedWatermark, ackedEntries] using h5 w

theorem notBefore_pairwise (f : Feed) (sorted : List Item)
    (hpw : sorted.Pairwise (fun a b => a.time ≤ b.time)) :
    (notBefore f sorted).Pairwise (fun a b => a.time ≤ b.time) :=
  hpw.sublist (List.filter_sublist _)

theorem notBefore_le (f : Feed) (sorted : List Item) (e : Item) (he : e ∈ notBefore f sorted) :
    f.LastFetchedAt.Time ≤ e.time := by
  have := (List.mem_filter.mp he).2
  simpa using this

/-! ## Claims about processFeed -/

/-- C3: for every feed and every fetched list of entries that all carry a publication
timestamp, in whatever order the gateway returned them and whatever the outcome of the
calls, `processFeed` returns, hands only fetched entries to `bot.Send`, and hands them
over in non-decreasing order of publication timestamp. Scenario: with the watermark unset
and entries `[(3,C), (1,A), (2,B)]` the deliveries are A, B, C and the last watermark
written is 3. -/
theorem processFeed_sends_in_publication_order (chatID : Int)
    (parseURL : String → Except String (List Item)) (sendOk updateOk : Nat → Bool)
    (f : Feed) (items : List Item)
    (hfetch : parseURL f.Url = .ok items) (hts : timestamped items = true) :
    ((processFeed chatID parseURL sendOk updateOk f).panicked = false ∧
      (∀ e ∈ sentEntries (processFeed chatID parseURL sendOk updateOk f).trace, e ∈ items) ∧
      (sentEntries (processFeed chatID parseURL sendOk updateOk f).trace).Pairwise
        (fun a b => a.time ≤ b.time)) ∧
    ((sentEntries (processFeed 7 (gateway [entry 3 "C", entry 1 "A", entry 2 "B"])
        always always (feedAt unset)).trace).map (fun e => e.Title) = ["A", "B", "C"] ∧
      (deliveredEntries (processFeed 7 (gateway [entry 3 "C", entry 1 "A", entry 2 "B"])
        always always (feedAt unset)).trace).map (fun e => e.Title) = ["A", "B", "C"] ∧
      (updateAttempts (processFeed 7 (gateway [entry 3 "C", entry 1 "A", entry 2 "B"])
        always always (feedAt unset)).trace).getLast? = some (1, ⟨3, true⟩) ∧
      storedWatermark 1 unset (processFeed 7 (gateway [entry 3 "C", entry 1 "A", entry 2 "B"])
        always always (feedAt unset)).trace = ⟨3, true⟩) := by
  obtain ⟨sorted, _, hperm, hpw, hpan, hsent, _, _, _⟩ :=
    processFeed_facts chatID parseURL sendOk updateOk f items hfetch hts
  refine ⟨⟨hpan, ?_, ?_⟩, by decide⟩
  · intro e he
    rw [hsent] at he
    exact hperm.mem_iff.mp (List.mem_filter.mp he).1
  · rw [hsent]
    exact notBefore_pairwise f sorted hpw

/-- C3, on the entries `[(5,E), (2,B), (5,D), (1,A)]` with watermark 2: the pass returns and
the entries sent are B, E, D, in non-decreasing order of timestamp. -/
theorem processFeed_sends_in_publication_order_witness :
    timestamped [entry 5 "E", entry 2 "B", entry 5 "D", entry 1 "A"] = true ∧
    (processFeed 7 (gateway [entry 5 "E", entry 2 "B", entry 5 "D", entry 1 "A"]) firstFails
      always (feedAt ⟨2, true⟩)).panicked = false ∧
    (sentEntries (processFeed 7 (gateway [entry 5 "E", entry 2 "B", entry 5 "D", entry 1 "A"])
      firstFails always (feedAt ⟨2, true⟩)).trace).Pairwise (fun a b => a.time ≤ b.time) ∧
    (sentEntries (processFeed 7 (gateway [entry 5 "E", entry 2 "B", entry 5 "D", entry 1 "A"])
      firstFails always (feedAt ⟨2, true⟩)).trace).map (fun e => e.Title) = ["B", "E", "D"] :=
  have h := processFeed_sends_in_publication_order 7
    (gateway [entry 5 "E", entry 2 "B", entry 5 "D", entry 1 "A"]) firstFails always
    (feedAt ⟨2, true⟩) [entry 5 "E", entry 2 "B", entry 5 "D", entry 1 "A"] rfl (by decide)
  ⟨by decide, h.1.1, h.1.2.2, by decide⟩

/-- C9: across one pass over entries that all carry a timestamp, whatever the pattern of
delivery and update failures, every call of `UpdateFeedLastFetched` carries the feed's own
identifier and a valid timestamp not earlier than the watermark `W` the pass started from,
the timestamps written are non-decreasing in call order, and the watermark the store holds
after the pass is not earlier than `W`. -/
theorem processFeed_watermark_writes_monotone (chatID : Int)
    (parseURL : String → Except String (List Item)) (sendOk updateOk : Nat → Bool)
    (f : Feed) (items : List Item)
    (hfetch : parseURL f.Url = .ok items) (hts : timestamped items = true) :
    (∀ p ∈ updateAttempts (processFeed chatID parseURL sendOk updateOk f).trace,
      p.1 = f.ID ∧ p.2.Valid = true ∧ f.LastFetchedAt.Time ≤ p.2.Time) ∧
    (updateAttempts (processFeed chatID parseURL sendOk updateOk f).trace).Pairwise
      (fun p q => p.2.Time ≤ q.2.Time) ∧
    f.LastFetchedAt.Time ≤
      (storedWatermark f.ID f.LastFetchedAt
        (processFeed chatID parseURL sendOk updateOk f).trace).Time := by
  obtain ⟨sorted, _, _, hpw, _, hsent, hupd, _, hstore⟩ :=
    processFeed_facts chatID parseURL sendOk updateOk f items hfetch hts
  have hdel := deliveredEntries_sublist (processFeed chatID parseURL sendOk updateOk f).trace
  rw [hsent] at hdel
  refine ⟨?_, ?_, ?_⟩
  · intro p hp
    rw [hupd] at hp
    obtain ⟨e, he, rfl⟩ := List.mem_map.mp hp
    exact ⟨rfl, rfl, notBefore_le f sorted e (hdel.subset he)⟩
  · rw [hupd, List.pairwise_map]
    exact (notBefore_pairwise f sorted hpw).sublist hdel
  · rw [hstore]
    have hack := ackedEntries_sublist (processFeed chatID parseURL sendOk updateOk f).trace
    cases hl : (ackedEntries (processFeed chatID parseURL sendOk updateOk f).trace).getLast? with
    | none => simp
    | some e =>
      have he := List.mem_of_getLast?_eq_some hl
      simpa [markOf] using notBefore_le f sorted e (hdel.subset (hack.subset he))

/-- C9, on the entries `[(3,C), (1,A), (2,B)]` with watermark 2, the first update failing:
the updates attempted are for 2 and then 3, both for feed 1. -/
theorem processFeed_watermark_writes_monotone_witness :
    timestamped [entry 3 "C", entry 1 "A", entry 2 "B"] = true ∧
    updateAttempts (processFeed 7 (gateway [entry 3 "C", entry 1 "A", entry 2 "B"]) always
      firstFails (feedAt ⟨2, true⟩)).trace = [(1, ⟨2, true⟩), (1, ⟨3, true⟩)] ∧
    (updateAttempts (processFeed 7 (gateway [entry 3 "C", entry 1 "A", entry 2 "B"]) always
      firstFails (feedAt ⟨2, true⟩)).trace).Pairwise (fun p q => p.2.Time ≤ q.2.Time) :=
  ⟨by decide, by decide,
    (processFeed_watermark_writes_monotone 7 (gateway [entry 3 "C", entry 1 "A", entry 2 "B"])
      always firstFails (feedAt ⟨2, true⟩) [entry 3 "C", entry 1 "A", entry 2 "B"] rfl
      (by decide)).2.1⟩

/-- C4, refuted as stated: watermark 5, one entry published at 6, delivery succeeds and
the watermark update fails. The entry newer than the watermark was delivered, yet the
watermark the store holds after the pass is still 5, not 6. -/
theorem watermark_stale_after_failed_update :
    deliveredEntries (processFeed 7 (gateway [entry 6 "new"]) always firstFails
      (feedAt ⟨5, true⟩)).trace = [entry 6 "new"] ∧
    storedWatermark 1 ⟨5, true⟩ (processFeed 7 (gateway [entry 6 "new"]) always firstFails
      (feedAt ⟨5, true⟩)).trace = ⟨5, true⟩ ∧
    ¬ (storedWatermark 1 ⟨5, true⟩ (processFeed 7 (gateway [entry 6 "new"]) always firstFails
      (feedAt ⟨5, true⟩)).trace).Time = 6 := by
  decide

/-- C4, amended: after one pass over entries that all carry a timestamp, the timestamp of
the watermark the store holds is that of the last entry, in ascending order of timestamp,
with timestamp later than `W` whose delivery and whose watermark update both succeeded, or
the timestamp of `W` if there is no such entry; the entries so acknowledged are in
ascending order of timestamp, and with none acknowledged the stored watermark is `W`
unchanged. -/
theorem processFeed_watermark_after_pass (chatID : Int)
    (parseURL : String → Except String (List Item)) (sendOk updateOk : Nat → Bool)
    (f : Feed) (items : List Item)
    (hfetch : parseURL f.Url = .ok items) (hts : timestamped items = true) :
    (storedWatermark f.ID f.LastFetchedAt
        (processFeed chatID parseURL sendOk updateOk f).trace).Time =
      ((((ackedEntries (processFeed chatID parseURL sendOk updateOk f).trace).filter
        (fun e => decide (f.LastFetchedAt.Time < e.time))).getLast?.map Item.time).getD
          f.LastFetchedAt.Time) ∧
    (ackedEntries (processFeed chatID parseURL sendOk updateOk f).trace).Pairwise
      (fun a b => a.time ≤ b.time) ∧
    (ackedEntries (processFeed chatID parseURL sendOk updateOk f).trace = [] →
      storedWatermark f.ID f.LastFetchedAt
        (processFeed chatID parseURL sendOk updateOk f).trace = f.LastFetchedAt) := by
  obtain ⟨sorted, _, _, hpw, _, hsent, _, _, hstore⟩ :=
    processFeed_facts chatID parseURL sendOk updateOk f items hfetch hts
  have hsub := (ackedEntries_sublist (processFeed chatID parseURL sendOk updateOk f).trace).trans
    (deliveredEntries_sublist (processFeed chatID parseURL sendOk updateOk f).trace)
  rw [hsent] at hsub
  have hasc := (notBefore_pairwise f sorted hpw).sublist hsub
  refine ⟨?_, hasc, ?_⟩
  · rw [← last_above _ f.LastFetchedAt.Time hasc
      (fun e he => notBefore_le f sorted e (hsub.subset he)), hstore]
    cases (ackedEntries (processFeed chatID parseURL sendOk updateOk f).trace).getLast? with
    | none => simp
    | some e => simp [markOf]
  · intro hnil
    rw [hstore, hnil]
    simp

/-- C4, on the scenario of the claim: watermark 5 and entries `[(4,old), (6,new)]`, every
call succeeding. Only `new` is delivered and the watermark is left at 6. -/
theorem processFeed_watermark_after_pass_witness :
    timestamped [entry 4 "old", entry 6 "new"] = true ∧
    sentEntries (processFeed 7 (gateway [entry 4 "old", entry 6 "new"]) always always
      (feedAt ⟨5, true⟩)).trace = [entry 6 "new"] ∧
    ackedEntries (processFeed 7 (gateway [entry 4 "old", entry 6 "new"]) always always
      (feedAt ⟨5, true⟩)).trace = [entry 6 "new"] ∧
    storedWatermark 1 ⟨5, true⟩ (processFeed 7 (gateway [entry 4 "old", entry 6 "new"]) always
      always (feedAt ⟨5, true⟩)).trace = ⟨6, true⟩ ∧
    (storedWatermark 1 ⟨5, true⟩ (processFeed 7 (gateway [entry 4 "old", entry 6 "new"]) always
        always (feedAt ⟨5, true⟩)).trace).Time =
      ((((ackedEntries (processFeed 7 (gateway [entry 4 "old", entry 6 "new"]) always always
        (feedAt ⟨5, true⟩)).trace).filter
        (fun e => decide ((5 : Int) < e.time))).getLast?.map Item.time).getD 5) :=
  ⟨by decide, by decide, by decide, by decide,
    (processFeed_watermark_after_pass 7 (gateway [entry 4 "old", entry 6 "new"]) always always
      (feedAt ⟨5, true⟩) [entry 4 "old", entry 6 "new"] rfl (by decide)).1⟩

/-- C1, refuted as stated: watermark unset, entries `[(1,A), (2,B)]`, delivery of A fails
and every later call succeeds. B is handed to `bot.Send` all the same and the watermark is
written once, for B. -/
theorem second_entry_sent_after_failed_delivery :
    (processFeed 7 (gateway [entry 1 "A", entry 2 "B"]) firstFails always (feedAt unset)).trace =
      [.parseURL "http://example.com/feed" true,
       .send 7 "A\nhttp://example.com/A" (entry 1 "A") false,
       .send 7 "B\nhttp://example.com/B" (entry 2 "B") true,
       .update 1 ⟨2, true⟩ true] ∧
    sentEntries (processFeed 7 (gateway [entry 1 "A", entry 2 "B"]) firstFails always
      (feedAt unset)).trace = [entry 1 "A", entry 2 "B"] ∧
    updateAttempts (processFeed 7 (gateway [entry 1 "A", entry 2 "B"]) firstFails always
      (feedAt unset)).trace = [(1, ⟨2, true⟩)] := by
  decide

/-- C1, amended: in a pass over entries that all carry a timestamp, a failed `bot.Send`
only skips its own entry. The watermark is written for exactly the entries whose delivery
succeeded, so never for the failed one, and every entry newer than the watermark is still
handed to `bot.Send`, once and in sorted order, whatever the outcome of the earlier
deliveries. -/
theorem processFeed_failed_send_skips_entry (chatID : Int)
    (parseURL : String → Except String (List Item)) (sendOk updateOk : Nat → Bool)
    (f : Feed) (items : List Item)
    (hfetch : parseURL f.Url = .ok items) (hts : timestamped items = true) :
    ∃ sorted, sortSlice items = some sorted ∧
      (sentEntries (processFeed chatID parseURL sendOk updateOk f).trace).filter
          (fun e => decide (f.LastFetchedAt.Time < e.time)) =
        sorted.filter (fun e => decide (f.LastFetchedAt.Time < e.time)) ∧
      updateAttempts (processFeed chatID parseURL sendOk updateOk f).trace =
        (deliveredEntries (processFeed chatID parseURL sendOk updateOk f).trace).map
          (fun e => (f.ID, markOf e)) := by
  obtain ⟨sorted, hsort, _, _, _, hsent, hupd, _, _⟩ :=
    processFeed_facts chatID parseURL sendOk updateOk f items hfetch hts
  refine ⟨sorted, hsort, ?_, hupd⟩
  rw [hsent, notBefore, List.filter_filter]
  apply List.filter_congr
  intro e _
  by_cases h : f.LastFetchedAt.Time < e.time
  · simp [h, le_of_lt h]
  · simp [h]

/-- C1, on three new entries whose first delivery fails: the two later entries are sent
and the watermark is written for them only. -/
theorem processFeed_failed_send_skips_entry_witness :
    timestamped [entry 3 "C", entry 1 "A", entry 2 "B"] = true ∧
    updateAttempts (processFeed 7 (gateway [entry 3 "C", entry 1 "A", entry 2 "B"]) firstFails
      always (feedAt unset)).trace = [(1, ⟨2, true⟩), (1, ⟨3, true⟩)] ∧
    ∃ sorted, sortSlice [entry 3 "C", entry 1 "A", entry 2 "B"] = some sorted ∧
      (sentEntries (processFeed 7 (gateway [entry 3 "C", entry 1 "A", entry 2 "B"]) firstFails
        always (feedAt unset)).trace).filter (fun e => decide ((feedAt unset).LastFetchedAt.Time < e.time)) =
        sorted.filter (fun e => decide ((feedAt unset).LastFetchedAt.Time < e.time)) ∧
      updateAttempts (processFeed 7 (gateway [entry 3 "C", entry 1 "A", entry 2 "B"]) firstFails
        always (feedAt unset)).trace =
        (deliveredEntries (processFeed 7 (gateway [entry 3 "C", entry 1 "A", entry 2 "B"])
          firstFails always (feedAt unset)).trace).map (fun e => ((feedAt unset).ID, markOf e)) :=
  ⟨by decide, by decide,
    processFeed_failed_send_skips_entry 7 (gateway [entry 3 "C", entry 1 "A", entry 2 "B"])
      firstFails always (feedAt unset) [entry 3 "C", entry 1 "A", entry 2 "B"] rfl (by decide)⟩

/-- C8, refuted as stated: watermark unset, entries `[(1,A), (2,B)]`, both deliveries
succeed and the watermark update for A fails. B is sent all the same and a second
watermark update is attempted. -/
theorem second_entry_sent_after_failed_update :
    (processFeed 7 (gateway [entry 1 "A", entry 2 "B"]) always firstFails (feedAt unset)).trace =
      [.parseURL "http://example.com/feed" true,
       .send 7 "A\nhttp://example.com/A" (entry 1 "A") true,
       .update 1 ⟨1, true⟩ false,
       .send 7 "B\nhttp://example.com/B" (entry 2 "B") true,
       .update 1 ⟨2, true⟩ true] ∧
    sentEntries (processFeed 7 (gateway [entry 1 "A", entry 2 "B"]) always firstFails
      (feedAt unset)).trace = [entry 1 "A", entry 2 "B"] ∧
    updateAttempts (processFeed 7 (gateway [entry 1 "A", entry 2 "B"]) always firstFails
      (feedAt unset)).trace = [(1, ⟨1, true⟩), (1, ⟨2, true⟩)] := by
  decide

/-- C8, amended: a failed `UpdateFeedLastFetched` changes nothing in the rest of the pass.
Whatever the outcomes of the watermark updates, the same entries are handed to `bot.Send`,
the same deliveries succeed, the same watermark updates are attempted and the pass ends
the same way. -/
theorem processFeed_failed_update_changes_nothing (chatID : Int)
    (parseURL : String → Except String (List Item)) (sendOk u1 u2 : Nat → Bool) (f : Feed) :
    sentEntries (processFeed chatID parseURL sendOk u1 f).trace =
      sentEntries (processFeed chatID parseURL sendOk u2 f).trace ∧
    deliveredEntries (processFeed chatID parseURL sendOk u1 f).trace =
      deliveredEntries (processFeed chatID parseURL sendOk u2 f).trace ∧
    updateAttempts (processFeed chatID parseURL sendOk u1 f).trace =
      updateAttempts (processFeed chatID parseURL sendOk u2 f).trace ∧
    (processFeed chatID parseURL sendOk u1 f).panicked =
      (processFeed chatID parseURL sendOk u2 f).panicked := by
  cases hp : parseURL f.Url with
  | error e => simp [processFeed, hp]
  | ok items =>
    cases hsort : sortSlice items with
    | none => simp [processFeed, hp, hsort]
    | some sorted =>
      simpa [processFeed, hp, hsort, Run.push, sentEntries, deliveredEntries, updateAttempts]
        using deliver_update_independent chatID sendOk u1 u2 f sorted 0 0 0

/-- C2, evaluated where the code departs from it. With watermark 5 an entry published at 5
is handed to `bot.Send`; and after a fully successful first pass over `[(1,A)]`, which
leaves the watermark at 1, a second pass over the same entries sends A again. -/
theorem entry_at_watermark_is_sent_again :
    sentEntries (processFeed 7 (gateway [entry 5 "dup"]) always always
      (feedAt ⟨5, true⟩)).trace = [entry 5 "dup"] ∧
    storedWatermark 1 unset (processFeed 7 (gateway [entry 1 "A"]) always always
      (feedAt unset)).trace = ⟨1, true⟩ ∧
    sentEntries (processFeed 7 (gateway [entry 1 "A"]) always always
      (feedAt ⟨1, true⟩)).trace = [entry 1 "A"] := by
  decide

/-- C6, evaluated where the code departs from it. An entry without a publication
timestamp ends the pass in a nil-pointer panic: alone, the panic comes from the watermark
comparison; next to dated entries, from the comparison inside the sort, and no dated entry
is delivered. -/
theorem undated_entry_panics :
    processFeed 7 (gateway [undated "X"]) always always (feedAt unset) =
      ⟨[.parseURL "http://example.com/feed" true], true⟩ ∧
    sortSlice [undated "X"] = some [undated "X"] ∧
    sortSlice [entry 1 "A", undated "X", entry 2 "B"] = none ∧
    processFeed 7 (gateway [entry 1 "A", undated "X", entry 2 "B"]) always always (feedAt unset) =
      ⟨[.parseURL "http://example.com/feed" true], true⟩ := by
  decide

/-! ## Claims about PollOnce -/

/-- C5: whenever `storage.ListFeeds` returns an error, `PollOnce` returns exactly that
error after its one call of `ListFeeds`, and the cycle makes no call at all to the gateway,
the sink or the watermark update. -/
theorem PollOnce_listFeeds_error (env : Env) (e : String) (h : env.listFeeds = .error e) :
    (PollOnce env).result = .returned (some e) ∧
    (PollOnce env).listFeedsCalls = 1 ∧
    (PollOnce env).events = [] ∧
    fetchedUrls (PollOnce env).events = [] ∧
    sentEntries (PollOnce env).events = [] ∧
    updateAttempts (PollOnce env).events = [] := by
  simp [PollOnce, h, Cycle.events, fetchedUrls, sentEntries, updateAttempts]

/-- C5, on a store failing with "database error", as in `TestPollOnce_ErrorListingFeeds`. -/
theorem PollOnce_listFeeds_error_witness :
    (PollOnce ⟨123, 4, .error "database error", fun _ => gateway [entry 1 "A"], fun _ => always,
      fun _ => always⟩).result = .returned (some "database error") ∧
    (PollOnce ⟨123, 4, .error "database error", fun _ => gateway [entry 1 "A"], fun _ => always,
      fun _ => always⟩).events = [] :=
  have h := PollOnce_listFeeds_error
    ⟨123, 4, .error "database error", fun _ => gateway [entry 1 "A"], fun _ => always,
      fun _ => always⟩ "database error" rfl
  ⟨h.1, h.2.2.1⟩

/-- C7, evaluated where the code departs from it. One worker, two listed feeds, `ListFeeds`
succeeds; the first feed holds an entry without a publication timestamp. The worker panics
in `processFeed`, the program ends, `PollOnce` does not return, and the second feed is
never fetched. -/
theorem PollOnce_crash_skips_later_feeds :
    (PollOnce ⟨123, 1,
      .ok [⟨1, "http://a", none, unset⟩, ⟨2, "http://b", none, unset⟩],
      fun j => if j = 0 then gateway [undated "X"] else gateway [entry 1 "A"],
      fun _ => always, fun _ => always⟩).result = .crashed ∧
    fetchedUrls (PollOnce ⟨123, 1,
      .ok [⟨1, "http://a", none, unset⟩, ⟨2, "http://b", none, unset⟩],
      fun j => if j = 0 then gateway [undated "X"] else gateway [entry 1 "A"],
      fun _ => always, fun _ => always⟩).events = ["http://a"] ∧
    sentEntries (PollOnce ⟨123, 1,
      .ok [⟨1, "http://a", none, unset⟩, ⟨2, "http://b", none, unset⟩],
      fun j => if j = 0 then gateway [undated "X"] else gateway [entry 1 "A"],
      fun _ => always, fun _ => always⟩).events = [] := by
  decide

/-! ## Claims about the unsubscribe button -/

/-- C10, evaluated where the code departs from it. For the feed identifier 512 the button
data written by `OnList` is "unsubscribe:512"; `strconv.ParseInt(data[1], 0, 10)` asks for
a 10-bit integer and rejects 512 as out of range, so `OnCallback` never calls `DeleteFeed`
and answers "Invalid feed id". The identifiers 1 and 511 do make the round trip. -/
theorem unsubscribe_512_is_rejected :
    OnList (.ok [⟨512, "http://a", some "a", unset⟩]) always =
      [.feed (some "a") "Unsubscribe" "unsubscribe:512"] ∧
    ParseInt "512".toList 0 10 = .error .errRange ∧
    OnCallback (fun _ => none) (unsubscribeData 512) = ⟨[], .send "Invalid feed id"⟩ ∧
    OnCallback (fun _ => none) (unsubscribeData 511) = ⟨[511], .send "Unsubscribed!"⟩ ∧
    OnCallback (fun _ => none) (unsubscribeData 1) = ⟨[1], .send "Unsubscribed!"⟩ :=
  ⟨by decide, rfl, by decide, by decide, by decide⟩

/-! ## What holds of the claims the code breaks, away from the defect -/

/-- The part of C2 the code keeps: in a pass over entries that all carry a timestamp, no
entry published before the watermark is handed to `bot.Send`. -/
theorem processFeed_never_sends_older (chatID : Int)
    (parseURL : String → Except String (List Item)) (sendOk updateOk : Nat → Bool)
    (f : Feed) (items : List Item)
    (hfetch : parseURL f.Url = .ok items) (hts : timestamped items = true) :
    ∀ e ∈ sentEntries (processFeed chatID parseURL sendOk updateOk f).trace,
      ¬ e.time < f.LastFetchedAt.Time := by
  obtain ⟨sorted, _, _, _, _, hsent, _, _, _⟩ :=
    processFeed_facts chatID parseURL sendOk updateOk f items hfetch hts
  intro e he
  rw [hsent] at he
  exact not_lt.mpr (notBefore_le f sorted e he)

theorem fetchedUrls_append (a b : List Event) :
    fetchedUrls (a ++ b) = fetchedUrls a ++ fetchedUrls b := by
  induction a with
  | nil => rfl
  | cons e es ih => cases e <;> simp [fetchedUrls, ih]

theorem processFeed_fetches_once (chatID : Int)
    (parseURL : String → Except String (List Item)) (sendOk updateOk : Nat → Bool) (f : Feed)
    (h : ∀ items, parseURL f.Url = .ok items → timestamped items = true) :
    (processFeed chatID parseURL sendOk updateOk f).panicked = false ∧
    fetchedUrls (processFeed chatID parseURL sendOk updateOk f).trace = [f.Url] := by
  cases hp : parseURL f.Url with
  | error e => simp [processFeed, hp, fetchedUrls]
  | ok items =>
    obtain ⟨_, _, _, _, hpan, _, _, hurl, _⟩ :=
      processFeed_facts chatID parseURL sendOk updateOk f items hp (h items hp)
    exact ⟨hpan, hurl⟩

theorem drain_all (env : Env)
    (hdated : ∀ j url items, env.parseURL j url = .ok items → timestamped items = true) :
    ∀ (feeds : List Feed) (j : Nat),
      (drain env j feeds).length = feeds.length ∧
      (drain env j feeds).any (fun r => r.panicked) = false ∧
      fetchedUrls ((drain env j feeds).map (fun r => r.trace)).flatten =
        feeds.map (fun f => f.Url) := by
  intro feeds
  induction feeds with
  | nil => intro j; simp [drain, fetchedUrls]
  | cons f rest ih =>
    intro j
    obtain ⟨hpan, hurl⟩ := processFeed_fetches_once env.ChatID (env.parseURL j) (env.sendOk j)
      (env.updateOk j) f (fun items h => hdated j f.Url items h)
    obtain ⟨h1, h2, h3⟩ := ih (j + 1)
    simp only [drain, hpan]
    refine ⟨by simp [h1], ?_, ?_⟩
    · simpa [hpan] using h2
    · simp [fetchedUrls_append, hurl, h3]

/-- The part of C7 the code keeps: with at least one worker, when `ListFeeds` succeeds and
every list of entries the gateway hands back carries timestamps throughout, the cycle
fetches every listed feed exactly once, in channel order, whatever fetch, delivery or
update fails on the way, and `PollOnce` returns nil. -/
theorem PollOnce_processes_every_feed (env : Env) (feeds : List Feed)
    (hcpu : 0 < env.NumCPU) (hlist : env.listFeeds = .ok feeds)
    (hdated : ∀ j url items, env.parseURL j url = .ok items → timestamped items = true) :
    (PollOnce env).result = .returned none ∧
    (PollOnce env).listFeedsCalls = 1 ∧
    (PollOnce env).runs.length = feeds.length ∧
    fetchedUrls (PollOnce env).events = feeds.map (fun f => f.Url) := by
  obtain ⟨h1, h2, h3⟩ := drain_all env hdated feeds 0
  have hne : env.NumCPU ≠ 0 := Nat.pos_iff_ne_zero.mp hcpu
  simp [PollOnce, hlist, hne, Cycle.events, h1, h2, h3]

end Telefeed
